import Mathlib

/-!
Verification of the coreutils-clone repository (catr, headr, wcr, uniqr,
cutr, grepr, tailr, ...). Each Rust crate's library functions are shallowly
embedded as pure Lean functions. Readers (`BufRead`) are modelled as finite
lists of `read_line`/`lines()` results: `.ok s` is a successful read that
appended `s` to the buffer (`s = ""` meaning 0 bytes read, i.e. EOF, for the
`read_line` loops), `.error e` is an I/O error carrying its message. A file
system is a map from file name to the result of opening that file.
-/

deriving instance DecidableEq for Except

/-- One `read_line` (or `lines()` iterator) result. -/
abbrev ReadRes := Except String String

/-- UTF-8 encoding of one scalar value (Rust `str::as_bytes` per char). -/
def utf8EncodeChar (c : Char) : List Nat :=
  let n := c.toNat
  if n < 0x80 then [n]
  else if n < 0x800 then [0xC0 + n / 64, 0x80 + n % 64]
  else if n < 0x10000 then [0xE0 + n / 4096, 0x80 + n / 64 % 64, 0x80 + n % 64]
  else [0xF0 + n / 262144, 0x80 + n / 4096 % 64, 0x80 + n / 64 % 64, 0x80 + n % 64]

/-- The UTF-8 bytes of a string (Rust `str::as_bytes` / `read_line`'s byte
count comes from its length). -/
def strBytes (s : String) : List Nat := s.data.flatMap utf8EncodeChar

/-- Is `b` a UTF-8 continuation byte (`0x80..=0xBF`)? -/
def utf8Cont (b : Nat) : Bool := 0x80 ≤ b && b ≤ 0xBF

/-- The replacement character U+FFFD. -/
def replChar : Char := Char.ofNat 0xFFFD

/-- Worker for `utf8DecodeLossy`; the fuel argument only makes the recursion
structural, every step consumes at least one byte so `fuel = length` never
runs out. -/
def utf8DecodeLossyAux : Nat → List Nat → List Char
  | 0, _ => []
  | _, [] => []
  | fuel + 1, b :: bs =>
    if b < 0x80 then Char.ofNat b :: utf8DecodeLossyAux fuel bs
    else if 0xC2 ≤ b && b ≤ 0xDF then
      match bs with
      | [] => [replChar]
      | b1 :: bs' =>
        if utf8Cont b1 then
          Char.ofNat ((b - 0xC0) * 64 + (b1 - 0x80)) :: utf8DecodeLossyAux fuel bs'
        else replChar :: utf8DecodeLossyAux fuel (b1 :: bs')
    else if 0xE0 ≤ b && b ≤ 0xEF then
      -- first continuation range depends on the lead byte
      let lo1 : Nat := if b = 0xE0 then 0xA0 else 0x80
      let hi1 : Nat := if b = 0xED then 0x9F else 0xBF
      match bs with
      | [] => [replChar]
      | b1 :: bs' =>
        if lo1 ≤ b1 && b1 ≤ hi1 then
          match bs' with
          | [] => [replChar]
          | b2 :: bs'' =>
            if utf8Cont b2 then
              Char.ofNat ((b - 0xE0) * 4096 + (b1 - 0x80) * 64 + (b2 - 0x80)) ::
                utf8DecodeLossyAux fuel bs''
            else replChar :: utf8DecodeLossyAux fuel (b2 :: bs'')
        else replChar :: utf8DecodeLossyAux fuel (b1 :: bs')
    else if 0xF0 ≤ b && b ≤ 0xF4 then
      let lo1 : Nat := if b = 0xF0 then 0x90 else 0x80
      let hi1 : Nat := if b = 0xF4 then 0x8F else 0xBF
      match bs with
      | [] => [replChar]
      | b1 :: bs' =>
        if lo1 ≤ b1 && b1 ≤ hi1 then
          match bs' with
          | [] => [replChar]
          | b2 :: bs'' =>
            if utf8Cont b2 then
              match bs'' with
              | [] => [replChar]
              | b3 :: bs''' =>
                if utf8Cont b3 then
                  Char.ofNat ((b - 0xF0) * 262144 + (b1 - 0x80) * 4096 +
                      (b2 - 0x80) * 64 + (b3 - 0x80)) :: utf8DecodeLossyAux fuel bs'''
                else replChar :: utf8DecodeLossyAux fuel (b3 :: bs''')
            else replChar :: utf8DecodeLossyAux fuel (b2 :: bs'')
        else replChar :: utf8DecodeLossyAux fuel (b1 :: bs')
    else
      -- invalid lead byte (0x80..=0xC1 or 0xF5..)
      replChar :: utf8DecodeLossyAux fuel bs

/-- Rust `String::from_utf8_lossy`: decode a byte sequence, replacing each
maximal invalid subpart with one U+FFFD, following the error lengths of
`core::str::Utf8Error` (substitution of maximal subparts). -/
def utf8DecodeLossy (l : List Nat) : List Char := utf8DecodeLossyAux l.length l

namespace Cutr

/-- A `Range<usize>` (half-open `start..end`); `end` is a Lean keyword, so
the upper bound is called `stop`. -/
structure RangeU where
  start : Nat
  stop : Nat
deriving Repr, DecidableEq

/-- The `usize::MAX` on the 64-bit targets the crate is built for. -/
def USIZE_MAX : Nat := 2 ^ 64 - 1

/-- Value of a digit string: `some n` when the input is nonempty and all
decimal digits (the digit phase of Rust's unsigned `FromStr`), else `none`. -/
def digitsValAux : Nat → List Char → Option Nat
  | acc, [] => some acc
  | acc, c :: cs =>
    if c.isDigit then digitsValAux (acc * 10 + (c.toNat - 48)) cs else none

/-- See `digitsValAux`; the empty string parses to nothing. -/
def digitsVal : List Char → Option Nat
  | [] => none
  | c :: cs => digitsValAux 0 (c :: cs)

/-- The `parse_index` from `08_cutr/src/lib.rs`: reject a leading `+`, then parse
as `NonZeroUsize` (optional-sign-free digits, nonzero, within `usize` range)
and convert the 1-based index to 0-based. -/
def parse_index (input : List Char) : Except String Nat :=
  let value_error : String := "illegal list value: \"" ++ String.mk input ++ "\""
  if input.head? = some '+' then .error value_error
  else
    match digitsVal input with
    | some n => if n = 0 ∨ USIZE_MAX < n then .error value_error else .ok (n - 1)
    | none => .error value_error

/-- The regex `^(\d+)-(\d+)$` used by `parse_pos`: a full match decomposes the
input into the two digit-run capture groups. -/
def rangeCaptures (s : List Char) : Option (List Char × List Char) :=
  let a := s.takeWhile Char.isDigit
  match s.drop a.length with
  | '-' :: b =>
    if a ≠ [] ∧ b ≠ [] ∧ b.all Char.isDigit then some (a, b) else none
  | _ => none

/-- The per-piece closure inside `parse_pos`: a single index becomes
`n..n+1`; otherwise the `^(\d+)-(\d+)$` captures are parsed, the bounds
checked (`n1 < n2`), and the piece becomes `n1..n2+1`; otherwise the
`parse_index` error is returned. -/
def parsePiece (pos_list : List Char) : Except String RangeU :=
  match parse_index pos_list with
  | .ok n => .ok ⟨n, n + 1⟩
  | .error e =>
    match rangeCaptures pos_list with
    | none => .error e
    | some (s1, s2) =>
      match parse_index s1 with
      | .error e1 => .error e1
      | .ok n1 =>
        match parse_index s2 with
        | .error e2 => .error e2
        | .ok n2 =>
          if n2 ≤ n1 then
            .error ("First number in range (" ++ toString (n1 + 1) ++
              ") must be lower than second number (" ++ toString (n2 + 1) ++ ")")
          else .ok ⟨n1, n2 + 1⟩

/-- Rust `str::split(',')`: always at least one piece; an empty input gives
one empty piece, a trailing comma a trailing empty piece. -/
def splitComma : List Char → List (List Char)
  | [] => [[]]
  | c :: cs =>
    if c = ',' then [] :: splitComma cs
    else
      match splitComma cs with
      | g :: gs => (c :: g) :: gs
      | [] => [[c]]

/-- The `Iterator::collect::<Result<Vec<_>, _>>`: all pieces in order, or the
first error. -/
def collectRanges : List (List Char) → Except String (List RangeU)
  | [] => .ok []
  | p :: ps =>
    match parsePiece p with
    | .error e => .error e
    | .ok r =>
      match collectRanges ps with
      | .error e => .error e
      | .ok rs => .ok (r :: rs)

/-- The `parse_pos` from `08_cutr/src/lib.rs`. -/
def parse_pos (range : String) : Except String (List RangeU) :=
  collectRanges (splitComma range.data)

/-- The indices a `Range<usize>` iterates over: `start, start+1, ..., stop-1`. -/
def rangeElems (r : RangeU) : List Nat := List.range' r.start (r.stop - r.start)

/-- The `extract_chars` from `08_cutr/src/lib.rs`. -/
def extract_chars (line : String) (char_pos : List RangeU) : String :=
  ⟨char_pos.flatMap fun r => (rangeElems r).filterMap fun i => line.data[i]?⟩

/-- The `extract_fields` from `08_cutr/src/lib.rs` (a `StringRecord` is its list
of fields). -/
def extract_fields (record : List String) (field_pos : List RangeU) : List String :=
  field_pos.flatMap fun r => (rangeElems r).filterMap fun i => record[i]?

/-- The `extract_bytes` from `08_cutr/src/lib.rs`: select bytes, then
`String::from_utf8_lossy`. -/
def extract_bytes (line : String) (byte_pos : List RangeU) : String :=
  let bytes := strBytes line
  ⟨utf8DecodeLossy (byte_pos.flatMap fun r => (rangeElems r).filterMap fun i => bytes[i]?)⟩

/-- Spec-side selection (from the glossary's words): for each listed range in
order, the elements of `xs` whose 0-based indices lie in it, out-of-range
indices contributing nothing. -/
def selectSlices {α : Type} (xs : List α) (pos : List RangeU) : List α :=
  pos.flatMap fun r => (xs.drop r.start).take (r.stop - r.start)

end Cutr

/-- The reads a `while let Ok(n) = read_line(..)` loop actually processes:
the longest prefix of successful non-EOF reads (an `Err` or a 0-byte read
leaves the loop). -/
def validReads : List ReadRes → List String
  | [] => []
  | .error _ :: _ => []
  | .ok s :: rest => if s = "" then [] else s :: validReads rest

/-- Number of `read_line` calls such a loop makes; the final call observes
the error, the EOF, or (in the model) the end of the list. -/
def loopCalls : List ReadRes → Nat
  | [] => 1
  | .error _ :: _ => 1
  | .ok s :: rest => if s = "" then 1 else 1 + loopCalls rest

namespace Wcr

/-- The `Config` from `05_wcr/src/lib.rs`. -/
structure Config where
  files : List String
  lines : Bool
  words : Bool
  bytes : Bool
  chars : Bool
deriving Repr, DecidableEq

/-- The `FileInfo` from `05_wcr/src/lib.rs`. -/
structure FileInfo where
  num_lines : Nat
  num_words : Nat
  num_bytes : Nat
  num_chars : Nat
deriving Repr, DecidableEq

/-- The `str::split_whitespace().count()`: the number of maximal nonempty runs
of non-whitespace characters (whitespace per `Char.isWhitespace`, covering
the ASCII part of Rust's Unicode `char::is_whitespace`). -/
def countWordsAux : Bool → List Char → Nat
  | _, [] => 0
  | inWord, c :: cs =>
    if c.isWhitespace then countWordsAux false cs
    else (if inWord then 0 else 1) + countWordsAux true cs

/-- See `countWordsAux`. -/
def split_whitespace_count (s : String) : Nat := countWordsAux false s.data

/-- One iteration of the `count` loop body: `read_line` appended `s`
(terminator included), so bytes += its UTF-8 length, lines += 1, words and
chars from the buffer. -/
def countStep (fi : FileInfo) (s : String) : FileInfo :=
  { num_lines := fi.num_lines + 1
    num_words := fi.num_words + split_whitespace_count s
    num_bytes := fi.num_bytes + (strBytes s).length
    num_chars := fi.num_chars + s.data.length }

/-- The `while let Ok(read_bytes) = file.read_line(&mut buf)` loop of
`count`: a read error or a 0-byte read leaves the loop. -/
def countLoop (fi : FileInfo) : List ReadRes → FileInfo
  | [] => fi
  | .error _ :: _ => fi
  | .ok s :: rest => if s = "" then fi else countLoop (countStep fi s) rest

/-- The `count` from `05_wcr/src/lib.rs`: every return path of the source is
`Ok(FileInfo { .. })`. -/
def count (file : List ReadRes) : Except String FileInfo :=
  .ok (countLoop ⟨0, 0, 0, 0⟩ file)

/-- The counts `count` produces for a file. -/
def countOf (file : List ReadRes) : FileInfo := countLoop ⟨0, 0, 0, 0⟩ file

/-- Right-align in the given width (Rust `format!("{:>8}", v)`). -/
def padTo (w : Nat) (s : String) : String :=
  String.mk (List.replicate (w - s.length) ' ') ++ s

/-- The `format_field` from `05_wcr/src/lib.rs`. -/
def format_field (value : Nat) (sel : Bool) : String :=
  if sel then padTo 8 (toString value) else ""

/-- The per-file line `run` prints: lines, words, chars, bytes, then the
file name unless it is stdin. -/
def fileLine (config : Config) (fi : FileInfo) (filename : String) : String :=
  format_field fi.num_lines config.lines ++ format_field fi.num_words config.words ++
    format_field fi.num_chars config.chars ++ format_field fi.num_bytes config.bytes ++
    (if filename = "-" then "" else " " ++ filename)

/-- Pointwise sum of counts (the four `total_* += ..` statements). -/
def addInfo (a b : FileInfo) : FileInfo :=
  ⟨a.num_lines + b.num_lines, a.num_words + b.num_words,
    a.num_bytes + b.num_bytes, a.num_chars + b.num_chars⟩

/-- State of `run`'s file loop: stdout so far, stderr so far, totals. -/
structure RunState where
  out : List String
  errlog : List String
  totals : FileInfo
deriving Repr, DecidableEq

/-- The file loop of `run`. `count(file).unwrap()` is modelled by `none`
(the panic) when `count` returns an error. -/
def runFiles (config : Config) (fs : String → Except String (List ReadRes)) :
    List String → RunState → Option RunState
  | [], st => some st
  | filename :: rest, st =>
    match fs filename with
    | .error err =>
      runFiles config fs rest { st with errlog := st.errlog ++ [filename ++ ": " ++ err] }
    | .ok file =>
      match count file with
      | .error _ => none
      | .ok fi =>
        runFiles config fs rest
          { out := st.out ++ [fileLine config fi filename]
            errlog := st.errlog
            totals := addInfo st.totals fi }

/-- The trailing total line printed when more than one file was named. -/
def totalLine (config : Config) (t : FileInfo) : String :=
  format_field t.num_lines config.lines ++ format_field t.num_words config.words ++
    format_field t.num_chars config.chars ++ format_field t.num_bytes config.bytes ++
    " total"

/-- What a run printed to stdout and stderr. -/
structure RunOut where
  out : List String
  errlog : List String
deriving Repr, DecidableEq

/-- The `run` from `05_wcr/src/lib.rs`. -/
def run (config : Config) (fs : String → Except String (List ReadRes)) : Option RunOut :=
  (runFiles config fs config.files ⟨[], [], ⟨0, 0, 0, 0⟩⟩).map fun st =>
    ⟨st.out ++ (if 1 < config.files.length then [totalLine config st.totals] else []),
      st.errlog⟩

/-- Spec-side per-file stdout lines of `run`, one per openable file. -/
def specOut (config : Config) (fs : String → Except String (List ReadRes))
    (files : List String) : List String :=
  files.filterMap fun f =>
    match fs f with
    | .error _ => none
    | .ok file => some (fileLine config (countOf file) f)

/-- Spec-side stderr of `run`, one message per unopenable file. -/
def specErr (fs : String → Except String (List ReadRes)) (files : List String) :
    List String :=
  files.filterMap fun f =>
    match fs f with
    | .error e => some (f ++ ": " ++ e)
    | .ok _ => none

/-- Spec-side totals of `run` over the openable files. -/
def specTotals (fs : String → Except String (List ReadRes)) : List String → FileInfo
  | [] => ⟨0, 0, 0, 0⟩
  | f :: rest =>
    match fs f with
    | .error _ => specTotals fs rest
    | .ok file => addInfo (countOf file) (specTotals fs rest)

end Wcr

namespace Grepr

/-- The loop of `find_lines`, partitioning lines as it reads them (the
source pushes each line into `matches` or `inv_matches`); a read error or a
0-byte read leaves the loop. -/
def findLoop (pattern : String → Bool) : List ReadRes → List String × List String
  | [] => ([], [])
  | .error _ :: _ => ([], [])
  | .ok s :: rest =>
    if s = "" then ([], [])
    else
      let (m, im) := findLoop pattern rest
      if pattern s then (s :: m, im) else (m, s :: im)

/-- The `find_lines` from `09_grepr/src/lib.rs`; the compiled regex enters only
through its `is_match` predicate. Every return path of the source is `Ok`. -/
def find_lines (file : List ReadRes) (pattern : String → Bool) (invert_match : Bool) :
    Except String (List String) :=
  .ok (if invert_match then (findLoop pattern file).2 else (findLoop pattern file).1)

end Grepr

namespace Tailr

/-- The `TakeValue` from `11_tailr/src/lib.rs`; the payload of `TakeNum` is an
`i64`, modelled as an integer (arithmetic on it is wrapped explicitly where
the source can overflow). -/
inductive TakeValue where
  | PlusZero : TakeValue
  | TakeNum : Int → TakeValue
deriving Repr, DecidableEq

/-- The `Config` from `11_tailr/src/lib.rs`. -/
structure Config where
  files : List String
  lines : TakeValue
  bytes : Option TakeValue
  quiet : Bool

/-- The `i64::MIN` = `-2^63`. -/
def I64_MIN : Int := -9223372036854775808

/-- The `i64::MAX` = `2^63 - 1`. -/
def I64_MAX : Int := 9223372036854775807

/-- Two's-complement wrap-around into `i64` range (the release-profile
result of an overflowing `i64` operation): `(n + 2^63) mod 2^64 - 2^63`. -/
def wrap64 (n : Int) : Int := (n + 9223372036854775808) % 18446744073709551616 - 9223372036854775808

/-- Rust `i64::abs` under release-profile overflow semantics: exact except
that `i64::MIN.abs()` wraps back to `i64::MIN`. -/
def i64_abs (n : Int) : Int := wrap64 (if n < 0 then -n else n)

/-- The `as u64` cast of an `i64` (two's-complement reinterpretation,
`n mod 2^64`). -/
def u64_of_i64 (n : Int) : Int := n % 18446744073709551616

/-- The `get_start_index` from `11_tailr/src/lib.rs`. -/
def get_start_index (take_val : TakeValue) (total : Int) : Option Int :=
  if total = 0 then none
  else
    match take_val with
    | .PlusZero => some (u64_of_i64 total - 1)
    | .TakeNum num =>
      if num = 0 ∨ total < num then none
      else if num < 0 then
        if total < i64_abs num then some 0
        else some (u64_of_i64 (wrap64 (total + num)))
      else some (u64_of_i64 num - 1)

/-- One iteration of the `count_lines_bytes` loop body. -/
def clbStep (acc : Int × Int) (s : String) : Int × Int :=
  (acc.1 + 1, acc.2 + (strBytes s).length)

/-- The `while let Ok(read_bytes) = ..` loop of `count_lines_bytes`. -/
def clbLoop (acc : Int × Int) : List ReadRes → Int × Int
  | [] => acc
  | .error _ :: _ => acc
  | .ok s :: rest => if s = "" then acc else clbLoop (clbStep acc s) rest

/-- The `count_lines_bytes` from `11_tailr/src/lib.rs`, as a function of the
open result of its file; it errs only when `File::open` does. -/
def count_lines_bytes (openRes : Except String (List ReadRes)) :
    Except String (Int × Int) :=
  match openRes with
  | .error e => .error e
  | .ok file => .ok (clbLoop (0, 0) file)

/-- What a run printed, plus `run`'s result. -/
structure RunOut where
  out : List String
  errlog : List String
  result : Except String Unit
deriving Repr, DecidableEq

/-- The file loop of `run` from `11_tailr/src/lib.rs`: for each openable
file it prints only "FILE has N lines and M bytes" (`print_lines` and
`print_bytes` are `unimplemented!()` and unused); the `?` on
`count_lines_bytes` aborts the run on error. -/
def runFiles (fs : String → Except String (List ReadRes)) : List String → RunOut
  | [] => ⟨[], [], .ok ()⟩
  | filename :: rest =>
    match fs filename with
    | .error err =>
      let r := runFiles fs rest
      ⟨r.out, (filename ++ ": " ++ err) :: r.errlog, r.result⟩
    | .ok _ =>
      match count_lines_bytes (fs filename) with
      | .error e => ⟨[], [], .error e⟩
      | .ok (total_lines, total_bytes) =>
        let r := runFiles fs rest
        ⟨(filename ++ " has " ++ toString total_lines ++ " lines and " ++
            toString total_bytes ++ " bytes") :: r.out, r.errlog, r.result⟩

/-- The `run` from `11_tailr/src/lib.rs`. -/
def run (config : Config) (fs : String → Except String (List ReadRes)) : RunOut :=
  runFiles fs config.files

end Tailr

namespace Catr

/-- The `Config` from `03_catr/src/lib.rs`. -/
structure Config where
  files : List String
  number_lines : Bool
  number_nonblank_lines : Bool

/-- Right-align in width 6 (Rust `format!("{:>6}", v)`). -/
def pad6 (n : Nat) : String :=
  String.mk (List.replicate (6 - (toString n).length) ' ') ++ toString n

/-- The per-file `for line in file.lines()` loop of `run`: `lines()` yields
terminator-free lines; `let line = line?` propagates a read error, aborting
the whole run. Returns the printed lines and the loop's outcome. Note the
`line_num -= 1` resetting the counter on blank lines in `-b` mode. -/
def catrFile (config : Config) : Nat → List ReadRes → List String × Except String Unit
  | _, [] => ([], .ok ())
  | _, .error e :: _ => ([], .error e)
  | line_num, .ok line :: rest =>
    let n := line_num + 1
    if config.number_lines then
      let r := catrFile config n rest
      ((pad6 n ++ "\t" ++ line) :: r.1, r.2)
    else if config.number_nonblank_lines then
      if line = "" then
        let r := catrFile config (n - 1) rest
        ("" :: r.1, r.2)
      else
        let r := catrFile config n rest
        ((pad6 n ++ "\t" ++ line) :: r.1, r.2)
    else
      let r := catrFile config n rest
      (line :: r.1, r.2)

/-- What a run printed, plus `run`'s result. -/
structure RunOut where
  out : List String
  errlog : List String
  result : Except String Unit
deriving Repr, DecidableEq

/-- The file loop of `run` from `03_catr/src/lib.rs`: an unopenable file is
reported on stderr and skipped; a read error inside a file aborts the whole
run via `?`. -/
def runFiles (config : Config) (fs : String → Except String (List ReadRes)) :
    List String → RunOut
  | [] => ⟨[], [], .ok ()⟩
  | filename :: rest =>
    match fs filename with
    | .error err =>
      let r := runFiles config fs rest
      ⟨r.out, ("Failed to open " ++ filename ++ ": " ++ err) :: r.errlog, r.result⟩
    | .ok file =>
      match catrFile config 0 file with
      | (outs, .ok ()) =>
        let r := runFiles config fs rest
        ⟨outs ++ r.out, r.errlog, r.result⟩
      | (outs, .error e) => ⟨outs, [], .error e⟩

/-- The `run` from `03_catr/src/lib.rs`. -/
def run (config : Config) (fs : String → Except String (List ReadRes)) : RunOut :=
  runFiles config fs config.files

/-- Spec-side stdout of a catr run in which no read fails: the per-file
outputs of every openable file, in file-list order. -/
def catrSpecOut (config : Config) (fs : String → Except String (List ReadRes))
    (files : List String) : List String :=
  files.flatMap fun f =>
    match fs f with
    | .error _ => []
    | .ok file => (catrFile config 0 file).1

/-- Spec-side stderr of a catr run: one message per unopenable file. -/
def catrSpecErr (fs : String → Except String (List ReadRes)) (files : List String) :
    List String :=
  files.filterMap fun f =>
    match fs f with
    | .error e => some ("Failed to open " ++ f ++ ": " ++ e)
    | .ok _ => none

end Catr

namespace Uniqr

/-- The `Config` from `06_uniqr/src/lib.rs`. -/
structure Config where
  in_file : String
  out_file : Option String
  count : Bool

/-- Rust `str::trim_end` (trailing whitespace removed). -/
def trimEnd (s : String) : String :=
  ⟨(s.data.reverse.dropWhile Char.isWhitespace).reverse⟩

/-- Right-align in width 4 (Rust `format!("{:>4} {}", count, text)`). -/
def pad4 (n : Nat) : String :=
  String.mk (List.replicate (4 - (toString n).length) ' ') ++ toString n

/-- The `print` closure of `run`: nothing when the count is 0. -/
def printEntry (config : Config) (count : Nat) (text : String) : List String :=
  if 0 < count then
    [if config.count then pad4 count ++ " " ++ text else text]
  else []

/-- The dedup loop of `run`: `read_line` keeps terminators, lines compare
via `trim_end`, and `file.read_line(&mut line)?` propagates a read error. -/
def uniqLoop (config : Config) (prev : String) (count : Nat) :
    List ReadRes → Except String (List String)
  | [] => .ok (printEntry config count prev)
  | .error e :: _ => .error e
  | .ok line :: rest =>
    if line = "" then .ok (printEntry config count prev)
    else if trimEnd line ≠ trimEnd prev then
      match uniqLoop config line 1 rest with
      | .error e => .error e
      | .ok outs => .ok (printEntry config count prev ++ outs)
    else uniqLoop config prev (count + 1) rest

/-- The `run` from `06_uniqr/src/lib.rs`: an unopenable input makes the whole
run fail with "FILE: err" (the `map_err(..)?` on `open`); the output sink
(stdout or the created file) is modelled as always writable. -/
def run (config : Config) (fs : String → Except String (List ReadRes)) :
    Except String (List String) :=
  match fs config.in_file with
  | .error e => .error (config.in_file ++ ": " ++ e)
  | .ok file => uniqLoop config "" 0 file

end Uniqr

namespace Headr

/-- The `Config` from `04_headr/src/lib.rs`. -/
structure Config where
  files : List String
  lines : Nat
  bytes : Option Nat
deriving Repr, DecidableEq

/-- The derived `{:#?}` pretty `Debug` rendering of `Config`. -/
def configDebug (config : Config) : String :=
  "Config \x7b\n    files: " ++
    (match config.files with
     | [] => "[]"
     | fsl => "[\n" ++ String.join (fsl.map fun f => "        \"" ++ f ++ "\",\n") ++ "    ]") ++
    ",\n    lines: " ++ toString config.lines ++
    ",\n    bytes: " ++
    (match config.bytes with
     | none => "None"
     | some b => "Some(\n        " ++ toString b ++ ",\n    )") ++
    ",\n\x7d"

/-- The `run` from `04_headr/src/lib.rs`: it only does
`println!("{:#?}", config)` — it never opens or reads any input file. -/
def run (config : Config) (fs : String → Except String (List ReadRes)) : List String :=
  [configDebug config]

end Headr

/-- A concrete headr configuration: the defaults `-n 10` on one file "a". -/
def c4HeadrCfg : Headr.Config := ⟨["a"], 10, none⟩

/-- A concrete tailr configuration: the defaults `-n 10` on one file "a". -/
def c4TailrCfg : Tailr.Config := ⟨["a"], .TakeNum (-10), none, false⟩

/-- A file system with one two-line file "a" ("hello\nworld\n"). -/
def c4Fs : String → Except String (List ReadRes) := fun f =>
  if f = "a" then .ok [.ok "hello\n", .ok "world\n"]
  else .error "No such file or directory (os error 2)"

/-- A catr configuration over files "a" then "b", no numbering. -/
def c5Cfg : Catr.Config := ⟨["a", "b"], false, false⟩

/-- A file system where reading the second line of "a" fails while "b" is
perfectly readable. -/
def c5Fs : String → Except String (List ReadRes) := fun f =>
  if f = "a" then .ok [.ok "x", .error "boom"]
  else if f = "b" then .ok [.ok "y"] else .error "no"

/-- A file system with one readable file "a" and nothing else. -/
def c5WitFs : String → Except String (List ReadRes) := fun f =>
  if f = "a" then .ok [.ok "x\n"] else .error "No such file or directory (os error 2)"

namespace Cutr

theorem digitsValAux_all_digits {acc n : Nat} {l : List Char}
    (h : digitsValAux acc l = some n) : l.all Char.isDigit = true := by
  induction l generalizing acc with
  | nil => rfl
  | cons c cs ih =>
    rw [digitsValAux] at h
    split at h
    · next hc => simpa [hc] using ih h
    · exact absurd h (by simp)

theorem digitsVal_all_digits {n : Nat} {l : List Char}
    (h : digitsVal l = some n) : l ≠ [] ∧ l.all Char.isDigit = true := by
  cases l with
  | nil => exact absurd h (by simp [digitsVal])
  | cons c cs => exact ⟨by simp, digitsValAux_all_digits h⟩

theorem digitsVal_of_not_all {l : List Char}
    (h : l.all Char.isDigit = false) : digitsVal l = none := by
  cases hd : digitsVal l with
  | none => rfl
  | some n => rw [(digitsVal_all_digits hd).2] at h; cases h

theorem all_digits_head_ne_plus {l : List Char} (hall : l.all Char.isDigit = true) :
    l.head? ≠ some '+' := by
  cases l with
  | nil => simp
  | cons c cs =>
    simp only [List.all_cons, Bool.and_eq_true] at hall
    have hc : c ≠ '+' := by
      intro heq; rw [heq] at hall; exact absurd hall.1 (by decide)
    simp [hc]

/-- A nonempty all-digit string within range parses to its 0-based value. -/
theorem parse_index_digits {p : List Char} {n : Nat} (h : digitsVal p = some n)
    (h1 : 1 ≤ n) (h2 : n ≤ USIZE_MAX) : parse_index p = .ok (n - 1) := by
  obtain ⟨hne, hall⟩ := digitsVal_all_digits h
  rw [parse_index, if_neg (all_digits_head_ne_plus hall)]
  simp only [h]
  rw [if_neg (by omega)]

/-- The `parse_index` only accepts all-digit strings. -/
theorem parse_index_ok_all_digits {p : List Char} {m : Nat}
    (h : parse_index p = .ok m) : p.all Char.isDigit = true := by
  rw [parse_index] at h
  split at h
  · exact absurd h (by simp)
  · split at h
    · next n hd => exact (digitsVal_all_digits hd).2
    · exact absurd h (by simp)

theorem takeWhile_all_append {a : List Char} {c : Char} {b : List Char}
    (ha : a.all Char.isDigit = true) (hc : Char.isDigit c = false) :
    (a ++ c :: b).takeWhile Char.isDigit = a := by
  induction a with
  | nil => simp [List.takeWhile_cons, hc]
  | cons x xs ih =>
    simp only [List.all_cons, Bool.and_eq_true] at ha
    simp [List.takeWhile_cons, ha.1, ih ha.2]

theorem rangeCaptures_append {a b : List Char}
    (ha : a ≠ []) (hall : a.all Char.isDigit = true)
    (hb : b ≠ []) (hball : b.all Char.isDigit = true) :
    rangeCaptures (a ++ '-' :: b) = some (a, b) := by
  rw [rangeCaptures]
  simp only [takeWhile_all_append (c := '-') hall (by decide), List.drop_left]
  rw [if_pos ⟨ha, hb, hball⟩]

theorem rangeCaptures_open_right {a : List Char} (hall : a.all Char.isDigit = true) :
    rangeCaptures (a ++ ['-']) = none := by
  rw [rangeCaptures]
  simp only [takeWhile_all_append (c := '-') hall (by decide), List.drop_left]
  simp

theorem rangeCaptures_open_left (a : List Char) : rangeCaptures ('-' :: a) = none := by
  rw [rangeCaptures]
  simp [List.takeWhile_cons]

/-- An accepted single 1-based index becomes the 0-based range `n-1..n`. -/
theorem parsePiece_single {p : List Char} {n : Nat} (h : digitsVal p = some n)
    (h1 : 1 ≤ n) (h2 : n ≤ USIZE_MAX) : parsePiece p = .ok ⟨n - 1, n⟩ := by
  rw [parsePiece]
  simp only [parse_index_digits h h1 h2]
  simp only [Except.ok.injEq, RangeU.mk.injEq]
  exact ⟨trivial, by omega⟩

/-- An accepted closed range `n1-n2` becomes the 0-based range `n1-1..n2`. -/
theorem parsePiece_closed {a b : List Char} {n1 n2 : Nat}
    (ha : digitsVal a = some n1) (hb : digitsVal b = some n2)
    (h1 : 1 ≤ n1) (h12 : n1 < n2) (h2 : n2 ≤ USIZE_MAX) :
    parsePiece (a ++ '-' :: b) = .ok ⟨n1 - 1, n2⟩ := by
  obtain ⟨hane, haall⟩ := digitsVal_all_digits ha
  obtain ⟨hbne, hball⟩ := digitsVal_all_digits hb
  cases hres : parse_index (a ++ '-' :: b) with
  | ok m =>
    have hd := parse_index_ok_all_digits hres
    rw [List.all_append, List.all_cons] at hd
    simp only [Bool.and_eq_true] at hd
    exact absurd hd.2.1 (by decide)
  | error e =>
    rw [parsePiece]
    simp only [hres, rangeCaptures_append hane haall hbne hball,
      parse_index_digits ha h1 (by omega), parse_index_digits hb (by omega) h2]
    rw [if_neg (by omega)]
    simp only [Except.ok.injEq, RangeU.mk.injEq]
    exact ⟨trivial, by omega⟩

/-- A right-open range `n-` is rejected. -/
theorem parsePiece_open_right {a : List Char} (hall : a.all Char.isDigit = true) :
    ∃ e, parsePiece (a ++ ['-']) = .error e := by
  cases hres : parse_index (a ++ ['-']) with
  | ok m =>
    have hd := parse_index_ok_all_digits hres
    rw [List.all_append, List.all_cons] at hd
    simp only [Bool.and_eq_true] at hd
    exact absurd hd.2.1 (by decide)
  | error e =>
    refine ⟨e, ?_⟩
    rw [parsePiece]
    simp only [hres, rangeCaptures_open_right hall]

/-- A left-open range `-n` is rejected. -/
theorem parsePiece_open_left (a : List Char) : ∃ e, parsePiece ('-' :: a) = .error e := by
  cases hres : parse_index ('-' :: a) with
  | ok m =>
    have hd := parse_index_ok_all_digits hres
    rw [List.all_cons] at hd
    simp only [Bool.and_eq_true] at hd
    exact absurd hd.1 (by decide)
  | error e =>
    refine ⟨e, ?_⟩
    rw [parsePiece]
    simp only [hres, rangeCaptures_open_left]

/-- Every range `parsePiece` produces is nonempty (`start < stop`). -/
theorem parsePiece_ok_lt {p : List Char} {r : RangeU} (h : parsePiece p = .ok r) :
    r.start < r.stop := by
  rw [parsePiece] at h
  split at h
  · next n heq =>
    injection h with h
    subst h
    simp
  · split at h
    · exact absurd h (by simp)
    · split at h
      · exact absurd h (by simp)
      · split at h
        · exact absurd h (by simp)
        · split at h
          · exact absurd h (by simp)
          · next hle =>
            injection h with h
            subst h
            simp only []
            omega

/-- The `collect::<Result<Vec<_>, _>>`: on success each piece, in order, produced
the corresponding range. -/
theorem collectRanges_ok {ps : List (List Char)} {l : List RangeU}
    (h : collectRanges ps = .ok l) :
    l.length = ps.length ∧
    (∀ r ∈ l, ∃ p ∈ ps, parsePiece p = .ok r) ∧
    ∀ (i : Nat) (hp : i < ps.length) (hl : i < l.length),
      parsePiece (ps.get ⟨i, hp⟩) = .ok (l.get ⟨i, hl⟩) := by
  induction ps generalizing l with
  | nil =>
    rw [collectRanges] at h
    injection h with h
    subst h
    simp
  | cons p ps ih =>
    rw [collectRanges] at h
    split at h
    · exact absurd h (by simp)
    · next r hr =>
      split at h
      · exact absurd h (by simp)
      · next rs hrs =>
        injection h with h
        subst h
        obtain ⟨hlen, hmem, hidx⟩ := ih hrs
        refine ⟨by simp [hlen], ?_, ?_⟩
        · intro x hx
          rcases List.mem_cons.mp hx with rfl | hx'
          · exact ⟨p, by simp, hr⟩
          · obtain ⟨q, hq, hpq⟩ := hmem x hx'
            exact ⟨q, by simp [hq], hpq⟩
        · intro i hp hl
          cases i with
          | zero => simpa using hr
          | succ j => simpa using hidx j (by simpa using hp) (by simpa using hl)

/-- The `Range::filter_map` over element lookup is slicing. -/
theorem filterMap_get_range' {α : Type} (xs : List α) :
    ∀ (n s : Nat), (List.range' s n).filterMap (fun i => xs[i]?) = (xs.drop s).take n := by
  intro n
  induction n with
  | zero => intro s; simp
  | succ m ih =>
    intro s
    rw [List.range'_succ, List.filterMap_cons]
    by_cases hs : s < xs.length
    · simp only [List.getElem?_eq_getElem hs]
      rw [ih, List.drop_eq_getElem_cons hs, List.take_succ_cons]
    · simp only [List.getElem?_eq_none (by omega : xs.length ≤ s)]
      rw [ih]
      rw [List.drop_eq_nil_iff.mpr (by omega), List.drop_eq_nil_iff.mpr (by omega)]
      simp

end Cutr

/-- Claim C1 counterexample: the claim says open ranges such as "1-" and
"-3" parse successfully, but `parse_pos` (whose range regex is
`^(\\d+)-(\\d+)$`) rejects both, as the crate's own unit tests expect. -/
theorem c1_counterexample_open_ranges_rejected :
    Cutr.parse_pos "1-" = .error "illegal list value: \"1-\"" ∧
    Cutr.parse_pos "-3" = .error "illegal list value: \"-3\"" := by decide

/-- Claim C1 (amended): `parse_pos` splits the position list on commas and
accepts each piece that is a single 1-based index (becoming the 0-based
half-open range `n-1..n`) or a closed range `n1-n2` with `n1 < n2` (becoming
`n1-1..n2`); open ranges (a digit string followed by a dash, or a dash
followed by a digit string) are rejected. -/
theorem c1_parse_pos_amended :
    (∀ s : String, Cutr.parse_pos s = Cutr.collectRanges (Cutr.splitComma s.data)) ∧
    (∀ (p : List Char) (n : Nat), Cutr.digitsVal p = some n → 1 ≤ n → n ≤ Cutr.USIZE_MAX →
      Cutr.parsePiece p = .ok ⟨n - 1, n⟩) ∧
    (∀ (a b : List Char) (n1 n2 : Nat),
      Cutr.digitsVal a = some n1 → Cutr.digitsVal b = some n2 →
      1 ≤ n1 → n1 < n2 → n2 ≤ Cutr.USIZE_MAX →
      Cutr.parsePiece (a ++ '-' :: b) = .ok ⟨n1 - 1, n2⟩) ∧
    (∀ a : List Char, a.all Char.isDigit = true →
      (∃ e, Cutr.parsePiece (a ++ ['-']) = .error e) ∧
      (∃ e, Cutr.parsePiece ('-' :: a) = .error e)) := by
  refine ⟨fun s => rfl, ?_, ?_, ?_⟩
  · intro p n h h1 h2
    exact Cutr.parsePiece_single h h1 h2
  · intro a b n1 n2 ha hb h1 h12 h2
    exact Cutr.parsePiece_closed ha hb h1 h12 h2
  · intro a hall
    exact ⟨Cutr.parsePiece_open_right hall, Cutr.parsePiece_open_left a⟩

/-- Witness for C1 (amended) at concrete pieces "7", "3-5", "1-". -/
theorem c1_witness :
    Cutr.parsePiece ['7'] = .ok ⟨6, 7⟩ ∧
    Cutr.parsePiece ['3', '-', '5'] = .ok ⟨2, 5⟩ ∧
    (∃ e, Cutr.parsePiece ['1', '-'] = .error e) := by
  refine ⟨?_, ?_, ?_⟩
  · exact c1_parse_pos_amended.2.1 ['7'] 7 (by decide) (by decide) (by decide)
  · exact c1_parse_pos_amended.2.2.1 ['3'] ['5'] 3 5 (by decide) (by decide) (by decide)
      (by decide) (by decide)
  · exact (c1_parse_pos_amended.2.2.2 ['1'] (by decide)).1

/-- Claim C2: a successful `parse_pos` returns one range per comma-separated
piece, in the order of the pieces, and every returned range is a nonempty
half-open range (`start < stop`). -/
theorem c2_parse_pos_position_list (s : String) (l : List Cutr.RangeU)
    (h : Cutr.parse_pos s = .ok l) :
    (∀ r ∈ l, r.start < r.stop) ∧
    l.length = (Cutr.splitComma s.data).length ∧
    ∀ (i : Nat) (hp : i < (Cutr.splitComma s.data).length) (hl : i < l.length),
      Cutr.parsePiece ((Cutr.splitComma s.data).get ⟨i, hp⟩) = .ok (l.get ⟨i, hl⟩) := by
  obtain ⟨hlen, hmem, hidx⟩ := Cutr.collectRanges_ok h
  refine ⟨?_, hlen, hidx⟩
  intro r hr
  obtain ⟨p, _, hp⟩ := hmem r hr
  exact Cutr.parsePiece_ok_lt hp

/-- Witness for C2 at the concrete position list "1,7,3-5". -/
theorem c2_witness :
    (∀ r ∈ [(⟨0, 1⟩ : Cutr.RangeU), ⟨6, 7⟩, ⟨2, 5⟩], r.start < r.stop) ∧
    [(⟨0, 1⟩ : Cutr.RangeU), ⟨6, 7⟩, ⟨2, 5⟩].length =
      (Cutr.splitComma "1,7,3-5".data).length := by
  have h := c2_parse_pos_position_list "1,7,3-5" [⟨0, 1⟩, ⟨6, 7⟩, ⟨2, 5⟩] (by decide)
  exact ⟨h.1, h.2.1⟩

/-- Claim C3 counterexample: `extract_bytes` does not return exactly the
selected bytes: selecting byte 0 of "ábc" selects the byte 0xC3, but the
function returns the replacement character U+FFFD (bytes EF BF BD), because
of the `String::from_utf8_lossy` conversion (the crate's own unit test
expects "\u{FFFD}" here). -/
theorem c3_counterexample_bytes_lossy :
    Cutr.selectSlices (strBytes "ábc") [⟨0, 1⟩] = [0xC3] ∧
    strBytes (Cutr.extract_bytes "ábc" [⟨0, 1⟩]) = [0xEF, 0xBF, 0xBD] ∧
    ([0xEF, 0xBF, 0xBD] : List Nat) ≠ [0xC3] := by decide

/-- Claim C3 (amended): `extract_chars` (resp. `extract_fields`) returns
exactly the characters (fields) whose 0-based indices fall in the listed
ranges, concatenated in the listed order, out-of-range indices contributing
nothing; `extract_bytes` selects exactly those bytes but returns them decoded
by `String::from_utf8_lossy`, so a selection that splits a multi-byte
character yields U+FFFD replacement characters instead of the raw bytes. -/
theorem c3_extract_selects_slices :
    (∀ (line : String) (pos : List Cutr.RangeU),
      Cutr.extract_chars line pos = ⟨Cutr.selectSlices line.data pos⟩) ∧
    (∀ (record : List String) (pos : List Cutr.RangeU),
      Cutr.extract_fields record pos = Cutr.selectSlices record pos) ∧
    (∀ (line : String) (pos : List Cutr.RangeU),
      Cutr.extract_bytes line pos =
        ⟨utf8DecodeLossy (Cutr.selectSlices (strBytes line) pos)⟩) := by
  refine ⟨?_, ?_, ?_⟩
  · intro line pos
    simp only [Cutr.extract_chars, Cutr.selectSlices, Cutr.rangeElems,
      Cutr.filterMap_get_range']
  · intro record pos
    simp only [Cutr.extract_fields, Cutr.selectSlices, Cutr.rangeElems,
      Cutr.filterMap_get_range']
  · intro line pos
    simp only [Cutr.extract_bytes, Cutr.selectSlices, Cutr.rangeElems,
      Cutr.filterMap_get_range']

example : Cutr.parse_pos "1" = .ok [⟨0, 1⟩] := by decide
example : Cutr.parse_pos "1,7,3-5" = .ok [⟨0, 1⟩, ⟨6, 7⟩, ⟨2, 5⟩] := by decide
example : Cutr.parse_pos "1-" = .error "illegal list value: \"1-\"" := by decide
example : Cutr.parse_pos "-3" = .error "illegal list value: \"-3\"" := by decide
example : Cutr.parse_pos "0" = .error "illegal list value: \"0\"" := by decide
example : Cutr.parse_pos "2-1" =
    .error "First number in range (2) must be lower than second number (1)" := by decide
example : Cutr.extract_chars "ábc" [⟨2, 3⟩, ⟨1, 2⟩] = "cb" := by decide
example : Cutr.extract_bytes "ábc" [⟨0, 1⟩] = String.mk [replChar] := by decide
example : Cutr.extract_bytes "ábc" [⟨0, 2⟩] = "á" := by decide
example : Cutr.extract_bytes "ábc" [⟨3, 4⟩, ⟨2, 3⟩] = "cb" := by decide
example : Cutr.extract_fields ["Captain", "Sham", "12345"] [⟨0, 1⟩, ⟨3, 4⟩] = ["Captain"] := by
  decide

theorem loopCalls_le (r : List ReadRes) : loopCalls r ≤ r.length + 1 := by
  induction r with
  | nil => simp [loopCalls]
  | cons x rest ih =>
    cases x with
    | error e => simp [loopCalls]
    | ok s =>
      simp only [loopCalls]
      split
      · simp
      · simp only [List.length_cons]
        omega

theorem validReads_of_reads (r : List ReadRes) :
    ∃ rest, (validReads r).map Except.ok ++ rest = r := by
  induction r with
  | nil => exact ⟨[], rfl⟩
  | cons x rest ih =>
    cases x with
    | error e => exact ⟨.error e :: rest, rfl⟩
    | ok s =>
      simp only [validReads]
      split
      · next hs => subst hs; exact ⟨.ok "" :: rest, rfl⟩
      · obtain ⟨t, ht⟩ := ih
        exact ⟨t, by simp [ht]⟩

namespace Wcr

theorem countLoop_foldl : ∀ (r : List ReadRes) (fi : FileInfo),
    countLoop fi r = (validReads r).foldl countStep fi := by
  intro r
  induction r with
  | nil => intro fi; rfl
  | cons x rest ih =>
    intro fi
    cases x with
    | error e => rfl
    | ok s =>
      simp only [countLoop, validReads]
      split
      · rfl
      · simp [List.foldl_cons, ih]

theorem addInfo_zero (a : FileInfo) : addInfo a ⟨0, 0, 0, 0⟩ = a := by
  simp [addInfo]

theorem zero_addInfo (a : FileInfo) : addInfo ⟨0, 0, 0, 0⟩ a = a := by
  simp [addInfo]

theorem addInfo_assoc (a b c : FileInfo) :
    addInfo (addInfo a b) c = addInfo a (addInfo b c) := by
  simp [addInfo]
  omega

/-- The file loop of wcr's `run` never panics and processes every file:
unopenable files contribute a stderr message, openable ones an output line
and their counts. -/
theorem runFiles_eq (config : Config) (fs : String → Except String (List ReadRes)) :
    ∀ (files : List String) (st : RunState),
      runFiles config fs files st =
        some ⟨st.out ++ specOut config fs files, st.errlog ++ specErr fs files,
          addInfo st.totals (specTotals fs files)⟩ := by
  intro files
  induction files with
  | nil =>
    intro st
    obtain ⟨o, el, t⟩ := st
    simp [runFiles, specOut, specErr, specTotals, addInfo_zero]
  | cons f rest ih =>
    intro st
    cases hfs : fs f with
    | error err =>
      simp only [runFiles, hfs, ih]
      simp [specOut, specErr, specTotals, hfs, List.filterMap_cons]
    | ok file =>
      simp only [runFiles, hfs, count, ih]
      simp [specOut, specErr, specTotals, hfs, List.filterMap_cons, countOf,
        addInfo_assoc]

end Wcr

namespace Tailr

theorem clbLoop_foldl : ∀ (r : List ReadRes) (acc : Int × Int),
    clbLoop acc r = (validReads r).foldl clbStep acc := by
  intro r
  induction r with
  | nil => intro acc; rfl
  | cons x rest ih =>
    intro acc
    cases x with
    | error e => rfl
    | ok s =>
      simp only [clbLoop, validReads]
      split
      · rfl
      · simp [List.foldl_cons, ih]

end Tailr

/-- Claim C6: the per-file core functions are deterministic — equal inputs
(file contents, pattern predicate, flags, position lists) give equal
results; the functions are pure, with no state, network, or concurrency in
their semantics. -/
theorem c6_core_functions_deterministic :
    (∀ r r' : List ReadRes, r = r' → Wcr.count r = Wcr.count r') ∧
    (∀ (r r' : List ReadRes) (p p' : String → Bool) (i i' : Bool),
      r = r' → p = p' → i = i' → Grepr.find_lines r p i = Grepr.find_lines r' p' i') ∧
    (∀ (l l' : String) (pos pos' : List Cutr.RangeU),
      l = l' → pos = pos' → Cutr.extract_chars l pos = Cutr.extract_chars l' pos') := by
  refine ⟨?_, ?_, ?_⟩ <;> intros <;> subst_vars <;> rfl

/-- Witness for C6 at concrete inputs. -/
theorem c6_witness :
    Wcr.count [.ok "a b\n"] = Wcr.count [.ok "a b\n"] ∧
    Grepr.find_lines [.ok "x\n"] (fun s => s = "x\n") false =
      Grepr.find_lines [.ok "x\n"] (fun s => s = "x\n") false ∧
    Cutr.extract_chars "abc" [⟨0, 2⟩] = Cutr.extract_chars "abc" [⟨0, 2⟩] :=
  ⟨c6_core_functions_deterministic.1 _ _ rfl,
    c6_core_functions_deterministic.2.1 _ _ _ _ _ _ rfl rfl rfl,
    c6_core_functions_deterministic.2.2 _ _ _ _ rfl rfl⟩

/-- Claim C7: the cited per-file loops (wcr's `count`, tailr's
`count_lines_bytes`) are single-pass and linear: they make at most
`length + 1` read calls, consume a prefix of the reads, and their result is
a single left fold over the successfully read lines (each line processed
exactly once); being total Lean functions, they terminate on every finite
input. -/
theorem c7_single_pass_linear (r : List ReadRes) :
    loopCalls r ≤ r.length + 1 ∧
    (∃ rest, (validReads r).map Except.ok ++ rest = r) ∧
    Wcr.countLoop ⟨0, 0, 0, 0⟩ r = (validReads r).foldl Wcr.countStep ⟨0, 0, 0, 0⟩ ∧
    Tailr.clbLoop (0, 0) r = (validReads r).foldl Tailr.clbStep (0, 0) :=
  ⟨loopCalls_le r, validReads_of_reads r, Wcr.countLoop_foldl r _, Tailr.clbLoop_foldl r _⟩

/-- Claim C8: wcr's `count` never returns an error — for every reader,
including one whose `read_line` eventually fails, it returns `Ok` with the
counts accumulated over the successfully read prefix; consequently the
`.unwrap()` on its result inside `run` cannot panic (`run` never reaches
the modelled panic state). -/
theorem c8_count_never_errors :
    (∀ file : List ReadRes,
      Wcr.count file = .ok ((validReads file).foldl Wcr.countStep ⟨0, 0, 0, 0⟩)) ∧
    ∀ (config : Wcr.Config) (fs : String → Except String (List ReadRes)),
      (Wcr.run config fs).isSome = true := by
  constructor
  · intro file
    simp [Wcr.count, Wcr.countLoop_foldl]
  · intro config fs
    simp [Wcr.run, Wcr.runFiles_eq]

namespace Grepr

theorem findLoop_filter (p : String → Bool) :
    ∀ L : List String, (∀ s ∈ L, s ≠ "") →
      findLoop p (L.map Except.ok) = (L.filter p, L.filter fun s => !(p s)) := by
  intro L
  induction L with
  | nil => intro _; rfl
  | cons s rest ih =>
    intro h
    have hs : s ≠ "" := h s (by simp)
    have hrest := ih fun x hx => h x (by simp [hx])
    simp only [List.map_cons, findLoop]
    rw [if_neg hs, hrest]
    by_cases hp : p s
    · simp [List.filter_cons, hp]
    · simp [List.filter_cons, hp]

theorem count_filter_partition (p : String → Bool) (l : List String) (a : String) :
    (l.filter p).count a + (l.filter fun x => !(p x)).count a = l.count a := by
  induction l with
  | nil => rfl
  | cons x rest ih =>
    by_cases hp : p x <;>
      simp [List.filter_cons, hp, List.count_cons] <;> omega

end Grepr

/-- Claim C9: for every input whose lines are nonempty (as `read_line`
delivers them) and every pattern predicate, `find_lines` with
`invert_match = false` and `= true` partition the input lines: both results
preserve input order (they are sublists), every line lands in exactly one of
the two (counted with multiplicity), and the inverted result is exactly the
complement (the lines failing the pattern). -/
theorem c9_find_lines_partition (L : List String) (pattern : String → Bool)
    (h : ∀ s ∈ L, s ≠ "") :
    Grepr.find_lines (L.map Except.ok) pattern false = .ok (L.filter pattern) ∧
    Grepr.find_lines (L.map Except.ok) pattern true =
      .ok (L.filter fun s => !(pattern s)) ∧
    (L.filter pattern).Sublist L ∧
    (L.filter fun s => !(pattern s)).Sublist L ∧
    ∀ s : String,
      (L.filter pattern).count s + (L.filter fun s => !(pattern s)).count s = L.count s := by
  refine ⟨?_, ?_, List.filter_sublist _, List.filter_sublist _,
    fun s => Grepr.count_filter_partition pattern L s⟩
  · simp [Grepr.find_lines, Grepr.findLoop_filter pattern L h]
  · simp [Grepr.find_lines, Grepr.findLoop_filter pattern L h]

/-- Witness for C9 on the three lines of the crate's own unit test. -/
theorem c9_witness :
    Grepr.find_lines (["Lorem\n", "Ipsum\r\n", "DOLOR"].map Except.ok)
        (fun s => s = "Lorem\n") false =
      .ok (["Lorem\n", "Ipsum\r\n", "DOLOR"].filter fun s => s = "Lorem\n") ∧
    Grepr.find_lines (["Lorem\n", "Ipsum\r\n", "DOLOR"].map Except.ok)
        (fun s => s = "Lorem\n") true =
      .ok (["Lorem\n", "Ipsum\r\n", "DOLOR"].filter fun s => !(s = "Lorem\n" : Bool)) :=
  ⟨(c9_find_lines_partition _ _ (by decide)).1,
    (c9_find_lines_partition _ _ (by decide)).2.1⟩

namespace Catr

theorem catrFile_ok_iff (config : Config) :
    ∀ (n : Nat) (ls : List ReadRes),
      (catrFile config n ls).2 = .ok () ↔ ∀ x ∈ ls, ∃ s, x = .ok s := by
  intro n ls
  induction ls generalizing n with
  | nil => simp [catrFile]
  | cons x rest ih =>
    cases x with
    | error e => simp [catrFile, List.forall_mem_cons]
    | ok line =>
      simp only [catrFile]
      split_ifs <;> simp [ih, List.forall_mem_cons]

theorem runFiles_ok (config : Config) (fs : String → Except String (List ReadRes))
    (h : ∀ f file, fs f = .ok file → ∀ x ∈ file, ∃ s, x = .ok s) :
    ∀ files : List String,
      runFiles config fs files =
        ⟨catrSpecOut config fs files, catrSpecErr fs files, .ok ()⟩ := by
  intro files
  induction files with
  | nil => rfl
  | cons f rest ih =>
    cases hfs : fs f with
    | error err =>
      simp only [runFiles, hfs, ih]
      simp [catrSpecOut, catrSpecErr, hfs, List.filterMap_cons]
    | ok file =>
      have h2 : (catrFile config 0 file).2 = .ok () :=
        (catrFile_ok_iff config 0 file).mpr (h f file hfs)
      rcases hcf : catrFile config 0 file with ⟨outs, res⟩
      rw [hcf] at h2
      simp only at h2
      subst h2
      simp only [runFiles, hfs, hcf, ih]
      simp [catrSpecOut, catrSpecErr, hfs, hcf, List.filterMap_cons]

end Catr

/-- Claim C5 counterexample: with files ["a", "b"] where reading the second
line of "a" fails, catr's `run` aborts with the read error: it does not
return success and never processes "b" (the claim asserts both). -/
theorem c5_counterexample_read_error_aborts :
    Catr.run c5Cfg c5Fs = ⟨["x"], [], .error "boom"⟩ ∧
    (Catr.run c5Cfg c5Fs).result ≠ .ok () ∧
    "y" ∉ (Catr.run c5Cfg c5Fs).out := by decide

/-- Claim C5 (amended): when a file cannot be *opened*, catr and wcr report
one stderr message for it and continue — `run` returns success and every
later file is still processed (wcr tolerates even mid-read failures, which
only truncate that file's counts). By contrast, a failing read inside an
opened file makes catr's `run` abort with that error (its per-file loop
returns `Ok` exactly when every line read succeeds), and uniqr's `run`
returns an error when its single input cannot be opened. -/
theorem c5_open_failures_reported_and_skipped :
    (∀ (config : Catr.Config) (fs : String → Except String (List ReadRes)),
      (∀ f file, fs f = .ok file → ∀ x ∈ file, ∃ s, x = .ok s) →
      Catr.run config fs =
        ⟨Catr.catrSpecOut config fs config.files, Catr.catrSpecErr fs config.files,
          .ok ()⟩) ∧
    (∀ (config : Wcr.Config) (fs : String → Except String (List ReadRes)),
      Wcr.run config fs = some
        ⟨Wcr.specOut config fs config.files ++
          (if 1 < config.files.length then
            [Wcr.totalLine config (Wcr.specTotals fs config.files)]
          else []),
          Wcr.specErr fs config.files⟩) ∧
    (∀ (config : Catr.Config) (n : Nat) (ls : List ReadRes),
      (Catr.catrFile config n ls).2 = .ok () ↔ ∀ x ∈ ls, ∃ s, x = .ok s) ∧
    (∀ (config : Uniqr.Config) (fs : String → Except String (List ReadRes)) (e : String),
      fs config.in_file = .error e →
      Uniqr.run config fs = .error (config.in_file ++ ": " ++ e)) := by
  refine ⟨?_, ?_, Catr.catrFile_ok_iff, ?_⟩
  · intro config fs h
    exact Catr.runFiles_ok config fs h config.files
  · intro config fs
    simp [Wcr.run, Wcr.runFiles_eq, Wcr.zero_addInfo]
  · intro config fs e he
    simp [Uniqr.run, he]

/-- Witness for C5 (amended): catr on ["missing", "a"] where only "a"
opens; the run succeeds with one stderr message and "a"'s output. -/
theorem c5_witness :
    Catr.run ⟨["missing", "a"], false, false⟩ c5WitFs =
      ⟨Catr.catrSpecOut ⟨["missing", "a"], false, false⟩ c5WitFs ["missing", "a"],
        Catr.catrSpecErr c5WitFs ["missing", "a"], .ok ()⟩ :=
  c5_open_failures_reported_and_skipped.1 ⟨["missing", "a"], false, false⟩ c5WitFs
    (by
      intro f file hf x hx
      by_cases hfa : f = "a"
      · subst hfa
        simp only [c5WitFs, if_pos rfl] at hf
        injection hf with hf
        subst hf
        simp only [List.mem_singleton] at hx
        exact ⟨"x\n", hx⟩
      · simp only [c5WitFs, if_neg hfa] at hf
        exact absurd hf (by simp))

/-- Claim C4 is contradicted by the code: headr's `run` only debug-prints
the parsed configuration and never opens or reads any input (its output is
independent of the file system), and tailr's `run` prints a "FILE has N
lines and M bytes" summary (its `print_lines` and `print_bytes` helpers are
`unimplemented!()` and never called) — neither writes the first or trailing
N lines/bytes of its input as the claim and the spec state. -/
theorem c4_head_tail_runs_do_not_transform :
    (∀ (config : Headr.Config) (fs fs' : String → Except String (List ReadRes)),
      Headr.run config fs = Headr.run config fs') ∧
    Headr.run c4HeadrCfg c4Fs = [Headr.configDebug c4HeadrCfg] ∧
    Headr.run c4HeadrCfg c4Fs ≠ ["hello\n", "world\n"] ∧
    Tailr.run c4TailrCfg c4Fs = ⟨["a has 2 lines and 12 bytes"], [], .ok ()⟩ ∧
    (Tailr.run c4TailrCfg c4Fs).out ≠ ["hello\n", "world\n"] := by
  refine ⟨fun config fs fs' => rfl, rfl, by decide, by decide, by decide⟩

/-- Claim C10 counterexample: at `TakeNum(i64::MIN)` the `num.abs()` call
in `get_start_index` overflows (release semantics wrap it back to
`i64::MIN`), so the guard `num.abs() > total` fails and the `as u64` cast
of `total + num` produces a huge start index: for a one-line file the
function returns `Some(2^63 + 1)`, which is not a valid 0-based offset
(`i < total` fails). `TakeNum(i64::MIN)` is reachable: the crate's own
tests show `parse_take_num` produces it. -/
theorem c10_counterexample_i64_min :
    Tailr.get_start_index (.TakeNum Tailr.I64_MIN) 1 = some 9223372036854775809 ∧
    ¬((9223372036854775809 : Int) < 1) := by decide

/-- Claim C10 (amended): for every take value whose numeric component is
strictly above i64::MIN (so that `abs` cannot overflow) and every
total in `0..=i64::MAX`, `get_start_index` returns `None` when the total is
0, when the numeric take value is 0, and when a positive take value exceeds
the total; and whenever it returns `Some i`, then `0 ≤ i < total`. -/
theorem c10_get_start_index_amended (tv : Tailr.TakeValue) (total : Int)
    (h0 : 0 ≤ total) (h1 : total ≤ Tailr.I64_MAX)
    (h2 : ∀ n, tv = .TakeNum n → Tailr.I64_MIN < n ∧ n ≤ Tailr.I64_MAX) :
    (total = 0 → Tailr.get_start_index tv total = none) ∧
    (tv = .TakeNum 0 → Tailr.get_start_index tv total = none) ∧
    (∀ n, tv = .TakeNum n → 0 < n → total < n → Tailr.get_start_index tv total = none) ∧
    ∀ i, Tailr.get_start_index tv total = some i → 0 ≤ i ∧ i < total := by
  simp only [Tailr.I64_MAX] at h1
  cases tv with
  | PlusZero =>
    refine ⟨fun ht => by simp [Tailr.get_start_index, ht], ?_, ?_, ?_⟩
    · intro h
      exact absurd h (by simp)
    · intro n h
      exact absurd h (by simp)
    intro i hi
    by_cases ht : total = 0
    · simp [Tailr.get_start_index, ht] at hi
    · simp only [Tailr.get_start_index, if_neg ht, Tailr.u64_of_i64] at hi
      injection hi with hi
      omega
  | TakeNum n =>
    obtain ⟨hlo, hhi⟩ := h2 n rfl
    simp only [Tailr.I64_MIN, Tailr.I64_MAX] at hlo hhi
    refine ⟨fun ht => by simp [Tailr.get_start_index, ht], ?_, ?_, ?_⟩
    · intro hEq
      injection hEq with hn
      subst hn
      by_cases ht : total = 0
      · simp [Tailr.get_start_index, ht]
      · simp [Tailr.get_start_index, ht]
    · intro m hEq hpos hgt
      injection hEq with hn
      subst hn
      by_cases ht : total = 0
      · simp [Tailr.get_start_index, ht]
      · simp only [Tailr.get_start_index, if_neg ht]
        rw [if_pos (Or.inr hgt)]
    · intro i hi
      by_cases ht : total = 0
      · simp [Tailr.get_start_index, ht] at hi
      · simp only [Tailr.get_start_index, if_neg ht, Tailr.i64_abs, Tailr.wrap64,
          Tailr.u64_of_i64] at hi
        split_ifs at hi <;> simp at hi <;> omega

/-- Witness for C10 (amended) at `TakeNum(-1)` with total 1. -/
theorem c10_witness :
    ((1 : Int) = 0 → Tailr.get_start_index (.TakeNum (-1)) 1 = none) ∧
    (Tailr.TakeValue.TakeNum (-1) = .TakeNum 0 →
      Tailr.get_start_index (.TakeNum (-1)) 1 = none) ∧
    (∀ n, Tailr.TakeValue.TakeNum (-1) = .TakeNum n → 0 < n → (1 : Int) < n →
      Tailr.get_start_index (.TakeNum (-1)) 1 = none) ∧
    ∀ i, Tailr.get_start_index (.TakeNum (-1)) 1 = some i → 0 ≤ i ∧ i < 1 :=
  c10_get_start_index_amended (.TakeNum (-1)) 1 (by decide) (by decide)
    (fun n h => by
      injection h with h
      subst h
      exact ⟨by decide, by decide⟩)
